import Mathlib

/-!
Verification of the bitcoin ransomware transaction-flow tracer.

Shallow embedding of the two core modules:

* `basic_bitcoin_tracker.py` — rate-limited address fetcher
  (`get_address_info`), transaction classifier (`analyze_transactions`)
  and the depth-bounded recursive tracer (`recursive_trace`);
* `grafo_transacciones.py` — single-hop flow aggregator
  (`get_outgoing_transactions`, `get_incoming_transactions`,
  `analyze_ransomware_flow`).

Modelling conventions:

* JSON dictionaries become structures; a field read with `.get(key)` whose
  value may be absent becomes an `Option`.
* Python float arithmetic on BTC amounts is modelled with exact rationals
  (`ℚ`); satoshi amounts are natural numbers and BTC amounts are always the
  derived quotient by 10^8, exactly as in the source.
* Network I/O is modelled by passing the remote responses as explicit
  arguments (one `Option AddressData` per call, `none` standing for a
  transport failure / non-success HTTP status / undecodable payload).
* Python's `set` has unspecified iteration order; it is modelled as the
  deduplicated list in order of first insertion, a deterministic stand-in.
-/

/-- A transaction output: `out.get('addr')` (may be absent) and
`out.get('value', 0)` in satoshis. -/
structure TxOutput where
  addr : Option String
  value : Nat
deriving DecidableEq

/-- A transaction input; only the nested `prev_out` dictionary is read:
`prev_out.get('addr')` and `prev_out.get('value', 0)`. -/
structure TxInput where
  prev_addr : Option String
  prev_value : Nat
deriving DecidableEq

/-- A transaction as read by the scripts: `hash`, `time`, `inputs`, `out`,
and the optional `fee` (satoshis). -/
structure Tx where
  hash : Option String
  time : Nat
  inputs : List TxInput
  out : List TxOutput
  fee : Option Nat
deriving DecidableEq

/-- The JSON answer of the address endpoint: the transaction list (absent
when the `txs` key is missing) plus the summary counters. -/
structure AddressData where
  txs : Option (List Tx)
  final_balance : Nat
  total_received : Nat
  total_sent : Nat
  n_tx : Nat
deriving DecidableEq

/-- One row of the classifier's `transaction_details` list
(`basic_bitcoin_tracker.py` lines 137-146). The timestamp is kept as the
raw UNIX time; the source only reformats it as a string. -/
structure FlowEdge where
  tx_hash : Option String
  timestamp : Nat
  from_address : String
  to_address : String
  value_btc : ℚ
  value_satoshis : Nat
  tx_fee : ℚ
deriving DecidableEq

/-- Conversion `value / 100000000.0` from satoshis to BTC, used verbatim
throughout both scripts. -/
def satToBtc (v : Nat) : ℚ := (v : ℚ) / 100000000

/-- Fee attached to an edge: `tx.get('fee', 0) / 100000000.0 if
tx.get('fee') else 0.0`. A fee of `0` is falsy in Python, hence the inner
test. -/
def txFeeBtc (tx : Tx) : ℚ :=
  match tx.fee with
  | some f => if f ≠ 0 then satToBtc f else 0
  | none => 0

/-- Lines 113-119 of `basic_bitcoin_tracker.py`: the target address is
spending in `tx` iff some input's `prev_out.addr` equals it. -/
def is_spending (target_address : String) (tx : Tx) : Bool :=
  tx.inputs.any (fun i => i.prev_addr == some target_address)

/-- Construction of the edge record appended at lines 137-146. -/
def mkFlowEdge (target_address : String) (tx : Tx) (dest : String) (v : Nat) : FlowEdge :=
  { tx_hash := tx.hash
    timestamp := tx.time
    from_address := target_address
    to_address := dest
    value_btc := satToBtc v
    value_satoshis := v
    tx_fee := txFeeBtc tx }

/-- Lines 126-146: the edges one transaction contributes for the target
address. A destination passes the filter when the string is truthy
(present and non-empty), differs from the target, and the BTC value is
positive. Non-spending transactions contribute nothing (line 122's
`continue`). -/
def tx_out_edges (target_address : String) (tx : Tx) : List FlowEdge :=
  if is_spending target_address tx then
    tx.out.filterMap (fun o =>
      match o.addr with
      | some dest =>
          if dest ≠ "" ∧ dest ≠ target_address ∧ 0 < satToBtc o.value then
            some (mkFlowEdge target_address tx dest o.value)
          else none
      | none => none)
  else []

/-- Function `analyze_transactions(address_data, target_address)`
(lines 76-148). `none` stands for a falsy `address_data`; a missing `txs`
key is the `txs := none` case. The returned set of outgoing addresses is
modelled as the first-occurrence deduplication of the emitted edges'
destinations, which has the same membership as the Python set. -/
def analyze_transactions (address_data : Option AddressData) (target_address : String) :
    List String × List FlowEdge :=
  match address_data with
  | none => ([], [])
  | some d =>
    match d.txs with
    | none => ([], [])
    | some txs =>
      let edges := (txs.map (tx_out_edges target_address)).flatten
      ((edges.map (·.to_address)).dedup, edges)

/-- Outcome of one HTTP GET in `get_address_info`: HTTP 429 (`throttled`),
a decodable success (`ok`), or any other failure — a raised
`RequestException`, or a non-2xx status that `raise_for_status` turns into
one (`failed`). -/
inductive FetchResponse where
  | throttled
  | ok (d : AddressData)
  | failed
deriving DecidableEq

/-- Observable event of `get_address_info`: one remote call, or one
`time.sleep(n)` of `n` seconds. -/
inductive CallEvent where
  | call
  | sleep (n : Nat)
deriving DecidableEq

/-- Body of `get_address_info` (lines 44-73 of
`basic_bitcoin_tracker.py`), with the remote service modelled as the
sequence `resp` of per-call outcomes, `idx` the index of the next call,
and the pair `(retry_count, max_retries)` entering only through
`remaining = max_retries - retry_count`; the source's retry test
`retry_count < max_retries` is `remaining ≠ 0`. Returns the parsed data
(`none` = unavailable) together with the list of events in order:

* transport failure or HTTP error: return `None`, no sleep;
* HTTP 429 with retries left: sleep 10, then recurse with
  `retry_count + 1`;
* HTTP 429 with retries exhausted: return `None`, no sleep;
* success: sleep 10, then return the payload. -/
def fetchLoop (resp : Nat → FetchResponse) (idx remaining : Nat) :
    Option AddressData × List CallEvent :=
  match resp idx with
  | .failed => (none, [.call])
  | .ok d => (some d, [.call, .sleep 10])
  | .throttled =>
    match remaining with
    | 0 => (none, [.call])
    | r + 1 =>
      let rest := fetchLoop resp (idx + 1) r
      (rest.1, .call :: .sleep 10 :: rest.2)

/-- Function `get_address_info(address, retry_count, max_retries)`; the
address only selects the response sequence, so it is left implicit in
`resp`. -/
def get_address_info (resp : Nat → FetchResponse) (retry_count max_retries : Nat) :
    Option AddressData × List CallEvent :=
  fetchLoop resp 0 (max_retries - retry_count)

/-- Number of remote calls recorded in an event list. -/
def countCalls (l : List CallEvent) : Nat :=
  l.countP (fun e => match e with | .call => true | .sleep _ => false)

/-- Predicate: every remote call is eventually followed by a sleep before
the function returns (the literal reading of the mandatory-delay claim). -/
def everyCallFollowedBySleep : List CallEvent → Bool
  | [] => true
  | .call :: rest =>
      rest.any (fun e => match e with | .sleep _ => true | .call => false) &&
      everyCallFollowedBySleep rest
  | .sleep _ :: rest => everyCallFollowedBySleep rest

/-- Predicate: no two remote calls are adjacent, i.e. consecutive calls
always have at least one sleep between them. -/
def noAdjacentCalls : List CallEvent → Bool
  | .call :: .call :: _ => false
  | _ :: rest => noAdjacentCalls rest
  | [] => true

/-- Predicate: the event list ends with a 10-second sleep. -/
def endsWithSleepTen : List CallEvent → Bool
  | [] => false
  | [.sleep n] => n == 10
  | [.call] => false
  | _ :: rest => endsWithSleepTen rest

/-- Predicate: every sleep in the list lasts exactly 10 seconds. -/
def allSleepsTen (l : List CallEvent) : Bool :=
  l.all (fun e => match e with | .sleep n => n == 10 | .call => true)

/-- Concrete spending transaction used to instantiate the classifier
theorems: the target "A" spends, with outputs to "B" (5 satoshis, kept),
back to "A" (3 satoshis, change, dropped), an address-less output
(dropped) and a zero-value output to "C" (dropped). -/
def txSampleSpend : Tx :=
  { hash := some "h1"
    time := 1700000000
    inputs := [⟨some "A", 8⟩]
    out := [⟨some "B", 5⟩, ⟨some "A", 3⟩, ⟨none, 2⟩, ⟨some "C", 0⟩]
    fee := some 1 }

/-- Concrete inbound-only transaction: "A" appears in no input. -/
def txSampleInbound : Tx :=
  { hash := some "h2"
    time := 1700000001
    inputs := [⟨some "Z", 4⟩, ⟨none, 1⟩]
    out := [⟨some "A", 4⟩]
    fee := none }

/-- Snapshot payload used by the pacing witness. -/
def dataSampleEmpty : AddressData := ⟨some [], 0, 0, 0, 0⟩

/-- Total BTC the address spends in one transaction
(`grafo_transacciones.py` lines 49-53): the sum of its matched input
values. -/
def total_spending (address : String) (tx : Tx) : ℚ :=
  tx.inputs.foldl
    (fun s i => if i.prev_addr = some address then s + satToBtc i.prev_value else s) 0

/-- Candidate outputs of a spending transaction (lines 59-68): destination
truthy (present, non-empty), different from the address, positive value. -/
def outputs_to_others (address : String) (tx : Tx) : List (String × ℚ) :=
  tx.out.filterMap (fun o =>
    match o.addr with
    | some dest =>
        if dest ≠ "" ∧ dest ≠ address ∧ 0 < satToBtc o.value then
          some (dest, satToBtc o.value)
        else none
    | none => none)

/-- Python's `max(candidates, key=value)`: the first element attaining the
maximal value, `none` on an empty list. -/
def maxByValue : List (String × ℚ) → Option (String × ℚ)
  | [] => none
  | x :: xs => some (xs.foldl (fun m o => if m.2 < o.2 then o else m) x)

/-- Attribution of one transaction's spending (lines 45-87): skip if the
address spends nothing; otherwise, if the largest candidate output holds
strictly more than 90% of the spending, attribute all of it there, else
distribute the spending across the candidates proportionally to value. -/
def tx_outgoing (address : String) (tx : Tx) : List (String × ℚ) :=
  let ts := total_spending address tx
  if ts = 0 then []
  else
    let cands := outputs_to_others address tx
    match maxByValue cands with
    | none => []
    | some main =>
      if ts * (9 / 10) < main.2 then [(main.1, ts)]
      else
        let total_to_others := (cands.map (fun o => o.2)).sum
        cands.map (fun o => (o.1, ts * (o.2 / total_to_others)))

/-- One `defaultdict(float)` update `acc[k] += v`, on an insertion-ordered
association list with unique keys. -/
def addEntry (acc : List (String × ℚ)) (k : String) (v : ℚ) : List (String × ℚ) :=
  if acc.any (fun p => p.1 == k) then
    acc.map (fun p => if p.1 == k then (p.1, p.2 + v) else p)
  else acc ++ [(k, v)]

/-- Function `get_outgoing_transactions(address)` (lines 26-99) given the
remote response: on failure (`none`) the handler returns the empty dict;
otherwise every transaction's attribution is accumulated into the
per-destination dictionary. -/
def get_outgoing_transactions (resp : Option AddressData) (address : String) :
    List (String × ℚ) :=
  match resp with
  | none => []
  | some d =>
    (d.txs.getD []).foldl
      (fun acc tx => (tx_outgoing address tx).foldl (fun a kv => addEntry a kv.1 kv.2) acc) []

/-- Total BTC the address receives in one transaction (lines 123-126). -/
def amount_received (address : String) (tx : Tx) : ℚ :=
  tx.out.foldl (fun s o => if o.addr = some address then s + satToBtc o.value else s) 0

/-- Source addresses of a transaction's inputs (lines 133-138): truthy and
different from the queried address, duplicates kept. -/
def tx_sources (address : String) (tx : Tx) : List String :=
  tx.inputs.filterMap (fun i =>
    match i.prev_addr with
    | some a => if a ≠ "" ∧ a ≠ address then some a else none
    | none => none)

/-- Attribution of one transaction's received amount (lines 121-146): skip
if nothing is received or there is no qualifying source; otherwise split
the amount equally among the unique sources. Python's unordered
`list(set(sources))` is modelled by `dedup`. -/
def tx_incoming (address : String) (tx : Tx) : List (String × ℚ) :=
  let r := amount_received address tx
  if r = 0 then []
  else
    let sources := tx_sources address tx
    if sources = [] then []
    else
      let unique_sources := sources.dedup
      unique_sources.map (fun s => (s, r / unique_sources.length))

/-- Function `get_incoming_transactions(address)` (lines 104-156) given
the remote response; failure again degrades to the empty dict. -/
def get_incoming_transactions (resp : Option AddressData) (address : String) :
    List (String × ℚ) :=
  match resp with
  | none => []
  | some d =>
    (d.txs.getD []).foldl
      (fun acc tx => (tx_incoming address tx).foldl (fun a kv => addEntry a kv.1 kv.2) acc) []

/-- The `flow_data` dictionary built by `analyze_ransomware_flow`
(lines 183-190); the unused `all_transactions` field is omitted (never
written). -/
structure FlowData where
  initial : String
  initial_to_accumulator : ℚ
  accumulator : String
  other_sources : List (String × ℚ)
  destinations : List (String × ℚ)
deriving DecidableEq

/-- Function `analyze_ransomware_flow(initial_address)` (lines 160-282).
The three remote responses it consumes (seed outgoing, accumulator
incoming, accumulator outgoing) are passed explicitly. An empty outgoing
dict for the seed (which is also what a failed query produces) aborts with
`None`; the accumulator is the destination with the maximal aggregated
amount; the remaining stages never abort. -/
def analyze_ransomware_flow (respInitial respAccIn respAccOut : Option AddressData)
    (initial_address : String) : Option FlowData :=
  let outgoing_from_initial := get_outgoing_transactions respInitial initial_address
  match maxByValue outgoing_from_initial with
  | none => none
  | some acc =>
    let incoming_to_accumulator := get_incoming_transactions respAccIn acc.1
    let other_sources := incoming_to_accumulator.filter (fun p => p.1 != initial_address)
    let destinations := get_outgoing_transactions respAccOut acc.1
    some ⟨initial_address, acc.2, acc.1, other_sources, destinations⟩

/-- Amount a per-destination contribution list assigns in total to one
destination key. -/
def keyTotal : List (String × ℚ) → String → ℚ
  | [], _ => 0
  | p :: rest, d => (if p.1 = d then p.2 else 0) + keyTotal rest d

/-- Sum of all amounts of a contribution list. -/
def sumVals (l : List (String × ℚ)) : ℚ := (l.map (fun p => p.2)).sum

/-- Concrete transactions for the aggregator claims. `txDominant`: the
seed "S" spends 1 BTC, outputs 0.95 to "X" and 0.05 to "Y". -/
def txDominant : Tx :=
  ⟨none, 0, [⟨some "S", 100000000⟩], [⟨some "X", 95000000⟩, ⟨some "Y", 5000000⟩], none⟩

/-- Boundary transaction: "S" spends 1 BTC, outputs 0.90 to "X" and 0.10
to "Y", so the largest output holds exactly 90% of the spending. -/
def txBoundary : Tx :=
  ⟨none, 0, [⟨some "S", 100000000⟩], [⟨some "X", 90000000⟩, ⟨some "Y", 10000000⟩], none⟩

/-- Change-only transaction: "S" spends but every output returns to "S",
leaving no candidate output. -/
def txChangeOnly : Tx :=
  ⟨none, 0, [⟨some "S", 100⟩], [⟨some "S", 100⟩], none⟩

/-- Equal-split transaction: "A" receives 1 BTC from sources "P" (0.3)
and "Q" (0.7). -/
def txEqualSplit : Tx :=
  ⟨none, 0, [⟨some "P", 30000000⟩, ⟨some "Q", 70000000⟩], [⟨some "A", 100000000⟩], none⟩

/-- Snapshot in which the seed "S" spends via `txDominant`. -/
def dataSeedSpend : AddressData := ⟨some [txDominant], 0, 0, 0, 0⟩

/-- Result of one (sub)invocation of `recursive_trace`: the edges the
subtree contributes to the shared accumulator (the source appends them in
the same pre-order), the number of remote queries the subtree performs,
and — as verification instrumentation — the branch path (the chain of
expanded addresses from the traversal root down to each expanded
address). -/
structure TraceResult where
  edges : List FlowEdge
  queries : Nat
  paths : List (List String)
deriving DecidableEq

/-- Python's stable `sorted(address_values, key=value, reverse=True)`
(line 240 of `basic_bitcoin_tracker.py`). -/
def sortByValueDesc (l : List (String × ℚ)) : List (String × ℚ) :=
  List.insertionSort (fun a b => b.2 ≤ a.2) l

/-- Function `recursive_trace` (`basic_bitcoin_tracker.py` lines 152-248),
with the remote service as the explicit `query` map. `visited` is this
branch's own set — the source passes `visited.copy()` to every child
(line 246), so siblings never see each other's additions; `branch` is
ghost instrumentation recording the chain of expanded addresses. A call
returns its own contribution to the shared accumulator; the guard, the
marking of the address, the top-3 selection by summed value and the
depth accounting follow lines 181-246. -/
def recursive_trace (query : String → Option AddressData) (start_address : String)
    (max_depth : Nat) (visited : List String) (current_depth : Nat)
    (branch : List String) : TraceResult :=
  if start_address ∈ visited ∨ max_depth ≤ current_depth then ⟨[], 0, []⟩
  else
    let visited' := start_address :: visited
    let branch' := branch ++ [start_address]
    match query start_address with
    | none => ⟨[], 1, [branch']⟩
    | some address_data =>
      let res := analyze_transactions (some address_data) start_address
      if h2 : current_depth + 1 < max_depth ∧ res.1 ≠ [] then
        let address_values := res.1.map (fun addr =>
          (addr, ((res.2.filter (fun t => t.to_address == addr)).map
            (fun t => t.value_btc)).sum))
        let significant_addresses := (sortByValueDesc address_values).take 3
        let childResults := significant_addresses.map (fun p =>
          recursive_trace query p.1 max_depth visited' (current_depth + 1) branch')
        ⟨res.2 ++ (childResults.map (fun c => c.edges)).flatten,
          1 + (childResults.map (fun c => c.queries)).sum,
          branch' :: (childResults.map (fun c => c.paths)).flatten⟩
      else ⟨res.2, 1, [branch']⟩
termination_by max_depth - current_depth
decreasing_by
  simp_wf
  omega

/-- Positivity of the BTC conversion mirrors positivity of the satoshi
amount. -/
theorem satToBtc_pos (v : Nat) : 0 < satToBtc v ↔ 0 < v := by
  unfold satToBtc
  rw [lt_div_iff₀ (by norm_num : (0:ℚ) < 100000000)]
  simp

/-- C9: classifying a missing (`None` / falsy) snapshot or a snapshot
without a transaction list yields the empty destination set and the empty
edge list, with no error. -/
theorem classifier_malformed_snapshot (A : String) (fb tr ts n : Nat) :
    analyze_transactions none A = ([], []) ∧
    analyze_transactions (some ⟨none, fb, tr, ts, n⟩) A = ([], []) :=
  ⟨rfl, rfl⟩

/-- Membership in the per-transaction edge list, unfolded once. -/
theorem mem_tx_out_edges (A : String) (t : Tx) (e : FlowEdge) :
    e ∈ tx_out_edges A t ↔
      (is_spending A t = true ∧ ∃ o ∈ t.out, ∃ dest, o.addr = some dest ∧
        (dest ≠ "" ∧ dest ≠ A ∧ 0 < satToBtc o.value) ∧
        e = mkFlowEdge A t dest o.value) := by
  unfold tx_out_edges
  cases hs : is_spending A t with
  | false => simp [hs]
  | true =>
    simp only [hs, if_true, List.mem_filterMap, true_and]
    refine exists_congr fun o => and_congr_right fun _ => ?_
    cases ha : o.addr with
    | none => simp
    | some dest =>
      simp only [Option.ite_none_right_eq_some, Option.some.injEq]
      constructor
      · rintro ⟨hc, rfl⟩
        exact ⟨dest, rfl, hc, rfl⟩
      · rintro ⟨dest', hd, hc, rfl⟩
        cases hd
        exact ⟨hc, rfl⟩

/-- Edge list produced by the classifier over a whole snapshot. -/
theorem analyze_transactions_edges (A : String) (sd : AddressData) (txs : List Tx)
    (ht : sd.txs = some txs) :
    (analyze_transactions (some sd) A).2 = (txs.map (tx_out_edges A)).flatten := by
  obtain ⟨otxs, fb, tr, tts, n⟩ := sd
  cases otxs with
  | none => simp at ht
  | some l =>
    obtain rfl : l = txs := by injection ht
    rfl

/-- C1: for a spending transaction an edge with destination `d` and value
`v` exists iff some output carries `(d, v)` with `d` present (non-empty),
`d ≠ A` and `v > 0`; a non-spending transaction contributes no edges; every
edge emitted by the classifier goes from `A` to a different address; and
the classifier's edge list is exactly the per-transaction contributions of
the snapshot's transactions. -/
theorem classifier_edge_characterization (A : String) (tx : Tx) (sd : AddressData) :
    (is_spending A tx = false → tx_out_edges A tx = []) ∧
    (is_spending A tx = true → ∀ d v,
      ((∃ e ∈ tx_out_edges A tx, e.to_address = d ∧ e.value_satoshis = v) ↔
        (∃ o ∈ tx.out, o.addr = some d ∧ o.value = v ∧ d ≠ "" ∧ d ≠ A ∧ 0 < v))) ∧
    (∀ e ∈ (analyze_transactions (some sd) A).2,
      e.from_address = A ∧ e.to_address ≠ A) ∧
    (∀ txs, sd.txs = some txs →
      ∀ e, e ∈ (analyze_transactions (some sd) A).2 ↔ ∃ t ∈ txs, e ∈ tx_out_edges A t) := by
  have hedge : ∀ t : Tx, ∀ e ∈ tx_out_edges A t, e.from_address = A ∧ e.to_address ≠ A := by
    intro t e he
    obtain ⟨-, o, -, dest, -, hc, rfl⟩ := (mem_tx_out_edges A t e).mp he
    exact ⟨rfl, hc.2.1⟩
  refine ⟨?_, ?_, ?_, ?_⟩
  · intro h
    unfold tx_out_edges
    rw [h]
    simp
  · intro h d v
    constructor
    · rintro ⟨e, he, hd, hv⟩
      obtain ⟨-, o, ho, dest, ha, hc, rfl⟩ := (mem_tx_out_edges A tx e).mp he
      obtain rfl : dest = d := hd
      obtain rfl : o.value = v := hv
      exact ⟨o, ho, ha, rfl, hc.1, hc.2.1, (satToBtc_pos _).mp hc.2.2⟩
    · rintro ⟨o, ho, ha, hv, hne, hna, hpos⟩
      refine ⟨mkFlowEdge A tx d o.value, ?_, rfl, hv⟩
      exact (mem_tx_out_edges A tx _).mpr
        ⟨h, o, ho, d, ha, ⟨hne, hna, (satToBtc_pos _).mpr (by omega)⟩, rfl⟩
  · intro e he
    rcases ht : sd.txs with - | txs
    · obtain ⟨otxs, fb, tr, tts, n⟩ := sd
      cases ht
      simp [analyze_transactions] at he
    · rw [analyze_transactions_edges A sd txs ht] at he
      simp only [List.mem_flatten, List.mem_map] at he
      rcases he with ⟨l, ⟨t, -, rfl⟩, hel⟩
      exact hedge t e hel
  · intro txs ht e
    rw [analyze_transactions_edges A sd txs ht]
    simp only [List.mem_flatten, List.mem_map]
    constructor
    · rintro ⟨l, ⟨t, htx, rfl⟩, hel⟩
      exact ⟨t, htx, hel⟩
    · rintro ⟨t, htx, hel⟩
      exact ⟨tx_out_edges A t, ⟨t, htx, rfl⟩, hel⟩

/-- Witness for C1 at the two concrete transactions above. -/
theorem classifier_edge_characterization_witness :
    tx_out_edges "A" txSampleInbound = [] ∧
    (∃ e ∈ tx_out_edges "A" txSampleSpend, e.to_address = "B" ∧ e.value_satoshis = 5) ∧
    ¬ (∃ e ∈ tx_out_edges "A" txSampleSpend, e.to_address = "C" ∧ e.value_satoshis = 0) := by
  have h1 := (classifier_edge_characterization "A" txSampleInbound ⟨some [], 0, 0, 0, 0⟩).1
  have h2 := (classifier_edge_characterization "A" txSampleSpend ⟨some [], 0, 0, 0, 0⟩).2.1
  refine ⟨h1 (by decide), ?_, ?_⟩
  · exact (h2 (by decide) "B" 5).mpr
      ⟨⟨some "B", 5⟩, by simp [txSampleSpend], rfl, rfl, by decide, by decide, by decide⟩
  · intro hed
    rcases (h2 (by decide) "C" 0).mp hed with ⟨o, ho, -, -, -, -, hpos⟩
    exact absurd hpos (by decide)

/-- Unfolding of the fetch loop on a transport/HTTP failure. -/
theorem fetchLoop_failed (resp : Nat → FetchResponse) (idx r : Nat)
    (hr : resp idx = .failed) : fetchLoop resp idx r = (none, [.call]) := by
  cases r with
  | zero => simp only [fetchLoop, hr]
  | succ r => simp only [fetchLoop, hr]

/-- Unfolding of the fetch loop on a success. -/
theorem fetchLoop_ok (resp : Nat → FetchResponse) (idx r : Nat) (d : AddressData)
    (hr : resp idx = .ok d) : fetchLoop resp idx r = (some d, [.call, .sleep 10]) := by
  cases r with
  | zero => simp only [fetchLoop, hr]
  | succ r => simp only [fetchLoop, hr]

/-- Unfolding of the fetch loop when throttled with no retries left. -/
theorem fetchLoop_throttled_zero (resp : Nat → FetchResponse) (idx : Nat)
    (hr : resp idx = .throttled) : fetchLoop resp idx 0 = (none, [.call]) := by
  simp only [fetchLoop, hr]

/-- Unfolding of the fetch loop when throttled with a retry left: sleep
ten seconds, then retry. -/
theorem fetchLoop_throttled_succ (resp : Nat → FetchResponse) (idx r : Nat)
    (hr : resp idx = .throttled) :
    fetchLoop resp idx (r + 1) =
      ((fetchLoop resp (idx + 1) r).1,
        .call :: .sleep 10 :: (fetchLoop resp (idx + 1) r).2) := by
  simp only [fetchLoop, hr]

/-- Behaviour of the fetch loop when every call is throttled: the result
is unavailable and the loop makes exactly one more call than it has
retries left. -/
theorem fetchLoop_all_throttled (resp : Nat → FetchResponse)
    (h : ∀ n, resp n = .throttled) :
    ∀ r idx, (fetchLoop resp idx r).1 = none ∧
      countCalls (fetchLoop resp idx r).2 = r + 1 := by
  intro r
  induction r with
  | zero =>
    intro idx
    rw [fetchLoop_throttled_zero resp idx (h idx)]
    exact ⟨rfl, by decide⟩
  | succ r ih =>
    intro idx
    have hrec := ih (idx + 1)
    rw [fetchLoop_throttled_succ resp idx r (h idx)]
    refine ⟨hrec.1, ?_⟩
    have h2 := hrec.2
    unfold countCalls at h2 ⊢
    simp only [List.countP_cons]
    simp
    omega

/-- C5: if the service is throttled on every call, `get_address_info`
returns unavailable after `max_retries - retry_count` retries, i.e.
`max_retries - retry_count + 1` total calls; on a non-throttling failure
it returns unavailable immediately after a single call, with no retry. -/
theorem fetch_retry_bound (resp : Nat → FetchResponse) (retry_count max_retries : Nat) :
    ((∀ n, resp n = .throttled) →
      (get_address_info resp retry_count max_retries).1 = none ∧
      countCalls (get_address_info resp retry_count max_retries).2 =
        (max_retries - retry_count) + 1) ∧
    (resp 0 = .failed →
      get_address_info resp retry_count max_retries = (none, [.call])) := by
  constructor
  · intro h
    exact fetchLoop_all_throttled resp h (max_retries - retry_count) 0
  · intro h
    unfold get_address_info
    exact fetchLoop_failed resp 0 _ h

/-- Witness for C5: with `max_retries = 3` and a service throttled on
every call, the fetch returns unavailable after exactly 4 calls; a
transport failure yields a single call and no retry. -/
theorem fetch_retry_bound_witness :
    (get_address_info (fun _ => .throttled) 0 3).1 = none ∧
    countCalls (get_address_info (fun _ => .throttled) 0 3).2 = 4 ∧
    get_address_info (fun _ => .failed) 0 3 = (none, [.call]) := by
  have h1 := (fetch_retry_bound (fun _ => .throttled) 0 3).1 (fun n => rfl)
  have h2 := (fetch_retry_bound (fun _ => .failed) 0 3).2 rfl
  exact ⟨h1.1, by simpa using h1.2, h2⟩

/-- Counterexample to C8 as stated: on a transport failure the call
returns with no sleep at all, so the mandatory delay is not enforced after
every completed call. -/
theorem mandatory_delay_cex :
    everyCallFollowedBySleep (get_address_info (fun _ => .failed) 0 3).2 = false := by
  rfl

/-- Pacing facts of the fetch loop: consecutive calls are always
separated by a sleep, every sleep lasts 10 seconds, and a successful
fetch sleeps before returning. -/
theorem fetchLoop_paced (resp : Nat → FetchResponse) :
    ∀ r idx, noAdjacentCalls (fetchLoop resp idx r).2 = true ∧
      allSleepsTen (fetchLoop resp idx r).2 = true ∧
      ((fetchLoop resp idx r).1.isSome = true →
        endsWithSleepTen (fetchLoop resp idx r).2 = true) := by
  intro r
  induction r with
  | zero =>
    intro idx
    cases hr : resp idx with
    | throttled =>
      rw [fetchLoop_throttled_zero resp idx hr]
      exact ⟨by decide, by decide, fun hs => by simp at hs⟩
    | ok d =>
      rw [fetchLoop_ok resp idx 0 d hr]
      exact ⟨rfl, rfl, fun _ => rfl⟩
    | failed =>
      rw [fetchLoop_failed resp idx 0 hr]
      exact ⟨by decide, by decide, fun hs => by simp at hs⟩
  | succ r ih =>
    intro idx
    have hrec := ih (idx + 1)
    cases hr : resp idx with
    | ok d =>
      rw [fetchLoop_ok resp idx (r + 1) d hr]
      exact ⟨rfl, rfl, fun _ => rfl⟩
    | failed =>
      rw [fetchLoop_failed resp idx (r + 1) hr]
      exact ⟨by decide, by decide, fun hs => by simp at hs⟩
    | throttled =>
      rw [fetchLoop_throttled_succ resp idx r hr]
      refine ⟨?_, ?_, ?_⟩
      · simpa [noAdjacentCalls] using hrec.1
      · simpa [allSleepsTen] using hrec.2.1
      · intro hs
        have hend := hrec.2.2 hs
        cases hrest : (fetchLoop resp (idx + 1) r).2 with
        | nil => rfl
        | cons y ys =>
          rw [hrest] at hend
          simpa [endsWithSleepTen] using hend

/-- C8 (amended): every sleep of `get_address_info` lasts exactly 10
seconds, two consecutive remote calls within one invocation are always
separated by such a sleep, and after a successful call the delay is
enforced before control returns; failure paths return without a delay
(see the counterexample). -/
theorem pacing_rule (resp : Nat → FetchResponse) (retry_count max_retries : Nat) :
    noAdjacentCalls (get_address_info resp retry_count max_retries).2 = true ∧
    allSleepsTen (get_address_info resp retry_count max_retries).2 = true ∧
    ((get_address_info resp retry_count max_retries).1.isSome = true →
      endsWithSleepTen (get_address_info resp retry_count max_retries).2 = true) :=
  fetchLoop_paced resp (max_retries - retry_count) 0

/-- Witness for C8 (amended) at a concrete successful fetch. -/
theorem pacing_rule_witness :
    noAdjacentCalls (get_address_info (fun _ => .ok dataSampleEmpty) 0 3).2 = true ∧
    endsWithSleepTen (get_address_info (fun _ => .ok dataSampleEmpty) 0 3).2 = true := by
  have h := pacing_rule (fun _ => .ok dataSampleEmpty) 0 3
  exact ⟨h.1, h.2.2 rfl⟩

/-- Scaling a contribution list scales its per-key totals. -/
theorem keyTotal_scaled (l : List (String × ℚ)) (c T : ℚ) (d : String) :
    keyTotal (l.map (fun o => (o.1, c * (o.2 / T)))) d = c * (keyTotal l d / T) := by
  induction l with
  | nil => simp [keyTotal]
  | cons a rest ih =>
    simp only [List.map_cons, keyTotal, ih]
    by_cases h : a.1 = d
    · simp only [if_pos h]
      ring
    · simp only [if_neg h]
      ring

/-- Scaling a contribution list scales its total. -/
theorem sumVals_scaled (l : List (String × ℚ)) (c T : ℚ) :
    sumVals (l.map (fun o => (o.1, c * (o.2 / T)))) = c * (sumVals l / T) := by
  induction l with
  | nil => simp [sumVals]
  | cons a rest ih =>
    simp only [sumVals, List.map_cons, List.sum_cons] at ih ⊢
    rw [ih]
    ring

/-- Every candidate output has a positive value. -/
theorem outputs_to_others_pos (address : String) (tx : Tx) :
    ∀ p ∈ outputs_to_others address tx, 0 < p.2 := by
  intro p hp
  unfold outputs_to_others at hp
  rcases List.mem_filterMap.mp hp with ⟨o, -, ho⟩
  cases ha : o.addr with
  | none => rw [ha] at ho; simp at ho
  | some dest =>
    rw [ha] at ho
    simp only [Option.ite_none_right_eq_some, Option.some.injEq] at ho
    obtain ⟨⟨-, -, hpos⟩, rfl⟩ := ho
    exact hpos

/-- Python's first-max is `none` exactly on the empty list. -/
theorem maxByValue_eq_none (l : List (String × ℚ)) : maxByValue l = none ↔ l = [] := by
  cases l <;> simp [maxByValue]

/-- A key absent from a constant-valued contribution list totals zero. -/
theorem keyTotal_map_const_not_mem (l : List String) (q : ℚ) (s : String) (hs : s ∉ l) :
    keyTotal (l.map (fun a => (a, q))) s = 0 := by
  induction l with
  | nil => simp [keyTotal]
  | cons a rest ih =>
    simp only [List.mem_cons, not_or] at hs
    simp only [List.map_cons, keyTotal]
    rw [if_neg (fun h => hs.1 h.symm), ih hs.2, add_zero]

/-- A key of a duplicate-free constant-valued contribution list totals the
constant. -/
theorem keyTotal_map_const_mem (l : List String) (hl : l.Nodup) (q : ℚ) (s : String)
    (hs : s ∈ l) : keyTotal (l.map (fun a => (a, q))) s = q := by
  induction l with
  | nil => simp at hs
  | cons a rest ih =>
    simp only [List.map_cons, keyTotal]
    rcases List.mem_cons.mp hs with rfl | hmem
    · rw [if_pos rfl, keyTotal_map_const_not_mem rest q s (List.nodup_cons.mp hl).1, add_zero]
    · have hna : a ≠ s := by
        rintro rfl
        exact (List.nodup_cons.mp hl).1 hmem
      rw [if_neg hna, ih (List.nodup_cons.mp hl).2 hmem, zero_add]

/-- Every qualifying source differs from the queried address. -/
theorem tx_sources_ne_address (address : String) (tx : Tx) :
    ∀ s ∈ tx_sources address tx, s ≠ address := by
  intro s hsm
  unfold tx_sources at hsm
  rcases List.mem_filterMap.mp hsm with ⟨i, -, hi⟩
  cases ha : i.prev_addr with
  | none => rw [ha] at hi; simp at hi
  | some a =>
    rw [ha] at hi
    simp only [Option.ite_none_right_eq_some, Option.some.injEq] at hi
    obtain ⟨⟨-, hne⟩, rfl⟩ := hi
    exact hne

/-- Counterexample to C3 as stated: in `txBoundary` the largest candidate
output holds exactly 90% of the spending — "at least 90%" in the claim's
words — yet the code's strict `>` test sends the transaction down the
proportional branch: "X" is attributed 0.9 (not the full 1.0) and "Y"
receives 0.1 (not nothing). -/
theorem outgoing_dominant_boundary_cex :
    total_spending "S" txBoundary = 1 ∧
    maxByValue (outputs_to_others "S" txBoundary) = some ("X", 9 / 10) ∧
    total_spending "S" txBoundary * (9 / 10) ≤ (9 / 10 : ℚ) ∧
    keyTotal (tx_outgoing "S" txBoundary) "X" = 9 / 10 ∧
    keyTotal (tx_outgoing "S" txBoundary) "X" ≠ total_spending "S" txBoundary ∧
    keyTotal (tx_outgoing "S" txBoundary) "Y" = 1 / 10 := by
  have hts : total_spending "S" txBoundary = 1 := by
    norm_num [total_spending, txBoundary, satToBtc]
  have hcands : outputs_to_others "S" txBoundary = [("X", 9 / 10), ("Y", 1 / 10)] := by
    norm_num +decide [outputs_to_others, txBoundary, satToBtc, List.filterMap_cons]
  have hmax : maxByValue (outputs_to_others "S" txBoundary) = some ("X", 9 / 10) := by
    rw [hcands]
    norm_num [maxByValue]
  have hout : tx_outgoing "S" txBoundary = [("X", 9 / 10), ("Y", 1 / 10)] := by
    simp only [tx_outgoing]
    rw [hts, hcands]
    norm_num [maxByValue, keyTotal]
  refine ⟨hts, hmax, by rw [hts]; norm_num, ?_, ?_, ?_⟩ <;>
    rw [hout] <;> norm_num +decide [keyTotal, hts]

/-- C3 (amended): with a positive spending and at least one candidate
output, the code attributes the entire spending to the first-maximal
candidate exactly when that candidate's value exceeds — strictly — 90% of
the spending, and then nothing to any other destination; otherwise it
distributes the spending over all candidates proportionally to their share
of the candidates' total value. -/
theorem outgoing_attribution_rule (address : String) (tx : Tx) (main : String × ℚ)
    (hm : maxByValue (outputs_to_others address tx) = some main)
    (hts : 0 < total_spending address tx) :
    (total_spending address tx * (9 / 10) < main.2 →
      keyTotal (tx_outgoing address tx) main.1 = total_spending address tx ∧
      ∀ d, d ≠ main.1 → keyTotal (tx_outgoing address tx) d = 0) ∧
    (¬ total_spending address tx * (9 / 10) < main.2 →
      ∀ d, keyTotal (tx_outgoing address tx) d =
        total_spending address tx *
          (keyTotal (outputs_to_others address tx) d /
            sumVals (outputs_to_others address tx))) := by
  have hne : total_spending address tx ≠ 0 := ne_of_gt hts
  constructor
  · intro hdom
    have hout : tx_outgoing address tx = [(main.1, total_spending address tx)] := by
      simp only [tx_outgoing, hm, hne, if_false, hdom, if_true]
    rw [hout]
    refine ⟨by simp [keyTotal], fun d hd => ?_⟩
    simp [keyTotal, hd.symm]
  · intro hnd d
    have hout : tx_outgoing address tx =
        (outputs_to_others address tx).map
          (fun o => (o.1, total_spending address tx *
            (o.2 / sumVals (outputs_to_others address tx)))) := by
      simp only [tx_outgoing, hm, hne, if_false, hnd, sumVals]
    rw [hout, keyTotal_scaled]

/-- Witness for C3 (amended) at `txDominant`: 95% exceeds the 90%
threshold, so "X" is attributed the whole spending and "Y" nothing. -/
theorem outgoing_attribution_rule_witness :
    keyTotal (tx_outgoing "S" txDominant) "X" = total_spending "S" txDominant ∧
    keyTotal (tx_outgoing "S" txDominant) "Y" = 0 := by
  have hcands : outputs_to_others "S" txDominant = [("X", 19 / 20), ("Y", 1 / 20)] := by
    norm_num +decide [outputs_to_others, txDominant, satToBtc, List.filterMap_cons]
  have hm : maxByValue (outputs_to_others "S" txDominant) = some ("X", 19 / 20) := by
    rw [hcands]
    norm_num [maxByValue]
  have hts : 0 < total_spending "S" txDominant := by
    norm_num [total_spending, txDominant, satToBtc]
  have htseq : total_spending "S" txDominant = 1 := by
    norm_num [total_spending, txDominant, satToBtc]
  have h := (outgoing_attribution_rule "S" txDominant ("X", 19 / 20) hm hts).1
    (by rw [htseq]; norm_num)
  exact ⟨h.1, h.2 "Y" (by decide)⟩

/-- C10: with a positive spending, a transaction's attribution sums
exactly to its spending whenever a candidate output exists, in both the
dominant and the proportional branch; with no candidate output the
transaction contributes nothing at all, silently dropping its spending. -/
theorem outgoing_conservation (address : String) (tx : Tx)
    (hts : 0 < total_spending address tx) :
    (outputs_to_others address tx ≠ [] →
      sumVals (tx_outgoing address tx) = total_spending address tx) ∧
    (outputs_to_others address tx = [] → tx_outgoing address tx = []) := by
  have hne : total_spending address tx ≠ 0 := ne_of_gt hts
  constructor
  · intro hcands
    cases hm : maxByValue (outputs_to_others address tx) with
    | none => exact absurd ((maxByValue_eq_none _).mp hm) hcands
    | some main =>
      by_cases hdom : total_spending address tx * (9 / 10) < main.2
      · have hout : tx_outgoing address tx = [(main.1, total_spending address tx)] := by
          simp only [tx_outgoing, hm, hne, if_false, hdom, if_true]
        rw [hout]
        simp [sumVals]
      · have hout : tx_outgoing address tx =
            (outputs_to_others address tx).map
              (fun o => (o.1, total_spending address tx *
                (o.2 / sumVals (outputs_to_others address tx)))) := by
          simp only [tx_outgoing, hm, hne, if_false, hdom, sumVals]
        have hTpos : 0 < sumVals (outputs_to_others address tx) := by
          unfold sumVals
          apply List.sum_pos
          · intro x hx
            rcases List.mem_map.mp hx with ⟨p, hp, rfl⟩
            exact outputs_to_others_pos address tx p hp
          · simp [hcands]
        rw [hout, sumVals_scaled, div_self (ne_of_gt hTpos), mul_one]
  · intro hcands
    simp only [tx_outgoing, hcands, hne, if_false, maxByValue]

/-- Witness for C10: the proportional branch of `txBoundary` conserves the
1 BTC spending, and the change-only transaction contributes nothing. -/
theorem outgoing_conservation_witness :
    sumVals (tx_outgoing "S" txBoundary) = total_spending "S" txBoundary ∧
    tx_outgoing "S" txChangeOnly = [] := by
  have hts1 : 0 < total_spending "S" txBoundary := by
    norm_num [total_spending, txBoundary, satToBtc]
  have hts2 : 0 < total_spending "S" txChangeOnly := by
    norm_num [total_spending, txChangeOnly, satToBtc]
  have hc1 : outputs_to_others "S" txBoundary ≠ [] := by
    have hcands : outputs_to_others "S" txBoundary = [("X", 9 / 10), ("Y", 1 / 10)] := by
      norm_num +decide [outputs_to_others, txBoundary, satToBtc, List.filterMap_cons]
    rw [hcands]
    simp
  have hc2 : outputs_to_others "S" txChangeOnly = [] := by
    norm_num +decide [outputs_to_others, txChangeOnly, satToBtc, List.filterMap_cons]
  exact ⟨(outgoing_conservation "S" txBoundary hts1).1 hc1,
    (outgoing_conservation "S" txChangeOnly hts2).2 hc2⟩

/-- C6: when the address receives a positive amount and at least one
qualifying source exists, the received amount is split equally among the
unique sources — each unique source is credited the amount divided by the
number of unique sources, regardless of its actual contribution — the
unique-source list is duplicate-free, excludes the address itself, and has
the same members as the raw source list; keys outside it get nothing. -/
theorem incoming_equal_split (address : String) (tx : Tx)
    (hr : 0 < amount_received address tx) (hs : tx_sources address tx ≠ []) :
    (tx_sources address tx).dedup.Nodup ∧
    address ∉ (tx_sources address tx).dedup ∧
    (∀ s, s ∈ (tx_sources address tx).dedup ↔ s ∈ tx_sources address tx) ∧
    (∀ s ∈ (tx_sources address tx).dedup,
      keyTotal (tx_incoming address tx) s =
        amount_received address tx / (tx_sources address tx).dedup.length) ∧
    (∀ s, s ∉ (tx_sources address tx).dedup → keyTotal (tx_incoming address tx) s = 0) := by
  have hrne : amount_received address tx ≠ 0 := ne_of_gt hr
  have hin : tx_incoming address tx =
      (tx_sources address tx).dedup.map
        (fun s => (s, amount_received address tx / (tx_sources address tx).dedup.length)) := by
    simp only [tx_incoming, hrne, if_false, hs]
  refine ⟨List.nodup_dedup _, ?_, fun s => List.mem_dedup, ?_, ?_⟩
  · intro hmem
    exact tx_sources_ne_address address tx address (List.mem_dedup.mp hmem) rfl
  · intro s hsm
    rw [hin]
    exact keyTotal_map_const_mem _ (List.nodup_dedup _) _ s hsm
  · intro s hsm
    rw [hin]
    exact keyTotal_map_const_not_mem _ _ s hsm

/-- Witness for C6 at `txEqualSplit`: "P" contributed 0.3 and "Q"
contributed 0.7, yet each is credited 0.5. -/
theorem incoming_equal_split_witness :
    keyTotal (tx_incoming "A" txEqualSplit) "P" = 1 / 2 ∧
    keyTotal (tx_incoming "A" txEqualSplit) "Q" = 1 / 2 := by
  have hr : 0 < amount_received "A" txEqualSplit := by
    norm_num [amount_received, txEqualSplit, satToBtc]
  have hrec : amount_received "A" txEqualSplit = 1 := by
    norm_num [amount_received, txEqualSplit, satToBtc]
  have hsrc : tx_sources "A" txEqualSplit = ["P", "Q"] := by decide
  have hded : (tx_sources "A" txEqualSplit).dedup = ["P", "Q"] := by
    rw [hsrc]
    decide
  have h := incoming_equal_split "A" txEqualSplit hr (by rw [hsrc]; simp)
  have hP := h.2.2.2.1 "P" (by rw [hded]; simp)
  have hQ := h.2.2.2.1 "Q" (by rw [hded]; simp)
  rw [hded, hrec] at hP hQ
  norm_num at hP hQ
  exact ⟨hP, hQ⟩

/-- Counterexample to C7 as stated: the seed "S" spends (so an accumulator
"X" is identified), the accumulator's incoming and outgoing queries both
fail (`none`), and yet the aggregation completes with a flow result
instead of aborting — the failed stages merely degrade to empty
mappings. -/
theorem aggregation_abort_cex :
    (analyze_ransomware_flow (some dataSeedSpend) none none "S").isSome = true := by
  have hcands : outputs_to_others "S" txDominant = [("X", 19 / 20), ("Y", 1 / 20)] := by
    norm_num +decide [outputs_to_others, txDominant, satToBtc, List.filterMap_cons]
  have hts : total_spending "S" txDominant = 1 := by
    norm_num [total_spending, txDominant, satToBtc]
  have h1 : tx_outgoing "S" txDominant = [("X", 1)] := by
    simp only [tx_outgoing]
    rw [hts, hcands]
    norm_num [maxByValue]
  have h2 : get_outgoing_transactions (some dataSeedSpend) "S" = [("X", 1)] := by
    simp [get_outgoing_transactions, dataSeedSpend, h1, addEntry]
  simp [analyze_ransomware_flow, h2, maxByValue]

/-- C7 (amended): the aggregation aborts — produces no flow result — iff
the seed's outgoing query yields an empty mapping (which is in particular
what a failed seed query produces); failures of the accumulator's incoming
or outgoing queries never abort the run. -/
theorem aggregation_abort_iff (respInitial respAccIn respAccOut : Option AddressData)
    (initial_address : String) :
    (analyze_ransomware_flow respInitial respAccIn respAccOut initial_address = none ↔
      get_outgoing_transactions respInitial initial_address = []) := by
  simp only [analyze_ransomware_flow]
  cases hm : maxByValue (get_outgoing_transactions respInitial initial_address) with
  | none => simp [(maxByValue_eq_none _).mp hm]
  | some acc =>
    simp only []
    constructor
    · intro h
      simp at h
    · intro h
      rw [h] at hm
      simp [maxByValue] at hm

/-- Query-count bound for the tracer, by induction on the remaining
depth: a call with `n` levels of depth left performs at most
`1 + 3 + ... + 3^(n-1)` remote queries. -/
theorem recursive_trace_queries_le (query : String → Option AddressData) (max_depth : Nat) :
    ∀ n current_depth, max_depth - current_depth = n →
      ∀ start visited branch,
        (recursive_trace query start max_depth visited current_depth branch).queries ≤
          ∑ i in Finset.range n, 3 ^ i := by
  intro n
  induction n with
  | zero =>
    intro cd hcd s v b
    rw [recursive_trace, if_pos (Or.inr (by omega))]
    exact Nat.zero_le _
  | succ m ih =>
    intro cd hcd s v b
    rw [recursive_trace]
    by_cases hg : s ∈ v ∨ max_depth ≤ cd
    · rw [if_pos hg]
      exact Nat.zero_le _
    · rw [if_neg hg]
      cases hq : query s with
      | none =>
        simp only [hq]
        rw [geom_sum_succ]
        exact Nat.le_add_left 1 _
      | some ad =>
        simp only [hq]
        by_cases h2 : cd + 1 < max_depth ∧ (analyze_transactions (some ad) s).1 ≠ []
        · rw [dif_pos h2]
          have hlen :
              ((sortByValueDesc ((analyze_transactions (some ad) s).1.map (fun addr =>
                (addr, (((analyze_transactions (some ad) s).2.filter
                  (fun t => t.to_address == addr)).map (fun t => t.value_btc)).sum)))).take
                3).length ≤ 3 :=
            List.length_take_le 3 _
          have hsum :
              ((((sortByValueDesc ((analyze_transactions (some ad) s).1.map (fun addr =>
                  (addr, (((analyze_transactions (some ad) s).2.filter
                    (fun t => t.to_address == addr)).map (fun t => t.value_btc)).sum)))).take
                  3).map (fun p =>
                    recursive_trace query p.1 max_depth (s :: v) (cd + 1) (b ++ [s]))).map
                (fun c => c.queries)).sum ≤
              ((sortByValueDesc ((analyze_transactions (some ad) s).1.map (fun addr =>
                (addr, (((analyze_transactions (some ad) s).2.filter
                  (fun t => t.to_address == addr)).map (fun t => t.value_btc)).sum)))).take
                3).length * ∑ i in Finset.range m, 3 ^ i := by
            rw [List.map_map]
            have hb := List.sum_le_card_nsmul
              (((sortByValueDesc ((analyze_transactions (some ad) s).1.map (fun addr =>
                (addr, (((analyze_transactions (some ad) s).2.filter
                  (fun t => t.to_address == addr)).map (fun t => t.value_btc)).sum)))).take
                3).map ((fun c => c.queries) ∘ (fun p =>
                  recursive_trace query p.1 max_depth (s :: v) (cd + 1) (b ++ [s]))))
              (∑ i in Finset.range m, 3 ^ i) ?_
            · simpa [smul_eq_mul] using hb
            · intro x hx
              rcases List.mem_map.mp hx with ⟨p, -, rfl⟩
              exact ih (cd + 1) (by omega) p.1 (s :: v) (b ++ [s])
          have h3 :
              ((sortByValueDesc ((analyze_transactions (some ad) s).1.map (fun addr =>
                (addr, (((analyze_transactions (some ad) s).2.filter
                  (fun t => t.to_address == addr)).map (fun t => t.value_btc)).sum)))).take
                3).length * (∑ i in Finset.range m, 3 ^ i) ≤
              3 * ∑ i in Finset.range m, 3 ^ i :=
            Nat.mul_le_mul_right _ hlen
          rw [geom_sum_succ]
          exact le_trans (Nat.add_le_add_left (le_trans hsum h3) 1) (by omega)
        · rw [dif_neg h2]
          rw [geom_sum_succ]
          exact Nat.le_add_left 1 _

/-- C2: for every remote service, seed address and depth bound `d`, the
tracer (a total function, hence terminating) performs at most
`∑ i ∈ [0, d), 3^i` remote queries: each expanded address recurses into at
most the top 3 destinations and each recursion level consumes one unit of
the depth budget. -/
theorem tracer_query_bound (query : String → Option AddressData) (seed : String) (d : Nat) :
    (recursive_trace query seed d [] 0 []).queries ≤ ∑ i in Finset.range d, 3 ^ i :=
  recursive_trace_queries_le query d d 0 (by omega) seed [] []

/-- Branch invariant of the tracer: if the branch path so far is
duplicate-free and entirely contained in the branch's visited set, then
every branch path recorded anywhere in the call's subtree is
duplicate-free — the address is added to the visited copy before
expansion, so no branch ever expands an address it already expanded. -/
theorem recursive_trace_paths_nodup_aux (query : String → Option AddressData)
    (max_depth : Nat) :
    ∀ n current_depth, max_depth - current_depth = n →
      ∀ start visited branch, branch.Nodup → (∀ a ∈ branch, a ∈ visited) →
        ∀ p ∈ (recursive_trace query start max_depth visited current_depth branch).paths,
          p.Nodup := by
  intro n
  induction n with
  | zero =>
    intro cd hcd s v b hbn hbv p hp
    rw [recursive_trace, if_pos (Or.inr (by omega))] at hp
    simp at hp
  | succ m ih =>
    intro cd hcd s v b hbn hbv p hp
    rw [recursive_trace] at hp
    by_cases hg : s ∈ v ∨ max_depth ≤ cd
    · rw [if_pos hg] at hp
      simp at hp
    · rw [if_neg hg] at hp
      have hsv : s ∉ v := fun h => hg (Or.inl h)
      have hsb : s ∉ b := fun h => hsv (hbv s h)
      have hbn' : (b ++ [s]).Nodup := by
        rw [List.nodup_append]
        refine ⟨hbn, List.nodup_singleton s, fun a ha hmem => hsb ?_⟩
        have : a = s := by simpa using hmem
        exact this ▸ ha
      have hbv' : ∀ a ∈ b ++ [s], a ∈ s :: v := by
        intro a ha
        rcases List.mem_append.mp ha with h | h
        · exact List.mem_cons_of_mem s (hbv a h)
        · simp only [List.mem_singleton] at h
          exact h ▸ List.mem_cons_self s v
      cases hq : query s with
      | none =>
        simp only [hq] at hp
        simp only [List.mem_singleton] at hp
        exact hp ▸ hbn'
      | some ad =>
        simp only [hq] at hp
        by_cases h2 : cd + 1 < max_depth ∧ (analyze_transactions (some ad) s).1 ≠ []
        · rw [dif_pos h2] at hp
          rcases List.mem_cons.mp hp with rfl | hin
          · exact hbn'
          · simp only [List.mem_flatten, List.mem_map] at hin
            rcases hin with ⟨l, ⟨c, ⟨pr, -, rfl⟩, rfl⟩, hpl⟩
            exact ih (cd + 1) (by omega) pr.1 (s :: v) (b ++ [s]) hbn' hbv' p hpl
        · rw [dif_neg h2] at hp
          simp only [List.mem_singleton] at hp
          exact hp ▸ hbn'

/-- C4: over any remote service, seed and depth bound, every branch path
recorded by the tracer — the chain of addresses one branch expands from
the root to its frontier — is duplicate-free: a branch never expands an
address already in its own visited set, even on cyclic transfer graphs.
Sibling branches carry independent copies of the visited set (see the
definition of `recursive_trace`), so only the branch's own history
constrains it. -/
theorem tracer_branch_no_revisit (query : String → Option AddressData)
    (seed : String) (d : Nat) :
    ((recursive_trace query seed d [] 0 []).paths).Forall List.Nodup := by
  rw [List.forall_iff_forall_mem]
  exact fun p hp => recursive_trace_paths_nodup_aux query d d 0 (by omega) seed [] []
    List.nodup_nil (by simp) p hp
